import Mathlib

/-!
Verification development for the agentic-chat-and-document-ingestion repository.

The persisted data model is taken from the SQL migrations
(`backend/migrations/001_initial_schema.sql`, the module 4/6 migrations), the
retrieval functions `match_chunks` and `keyword_search_chunks` from their
`CREATE FUNCTION` bodies, and the frontend logic (`validateFile`,
`handleUpload`, `handleSave`, the `sendMessage` SSE consumer) from the React
sources.  PostgreSQL builtin operators that the SQL merely applies —
the pgvector cosine-distance operator, jsonb containment, tsquery
matching/ranking and `websearch_to_tsquery` — are passed in as function
parameters, so every theorem below is uniform in them, exactly as the SQL
text is.  Backend endpoints that are not part of the visible sources are
modelled from the specification and marked as such in their doc comments.
-/

/-- A row of the `chunks` table (`001_initial_schema.sql` plus the
`search_vector` column added by the module 6 migration).  `Emb` is the
pgvector embedding type, `Meta` the jsonb metadata type and `V` the tsvector
type; uuids are modelled as naturals. -/
structure Chunk (Emb Meta V : Type) where
  id : Nat
  document_id : Nat
  user_id : Nat
  content : String
  chunk_index : Nat
  embedding : Emb
  metadata : Meta
  search_vector : V
deriving DecidableEq

/-- The row type returned by both search functions
(`RETURNS TABLE (id, document_id, content, chunk_index, metadata, ...)`);
`score` is the `similarity` column of `match_chunks` and the `rank` column
of `keyword_search_chunks`. -/
structure SearchRow (Meta : Type) where
  id : Nat
  document_id : Nat
  content : String
  chunk_index : Nat
  metadata : Meta
  score : ℚ
deriving DecidableEq

/-- Projection of a chunk to a `match_chunks` result row:
`similarity = 1 - (c.embedding <=> query_embedding)`. -/
def matchRow {Emb Meta V : Type} (cosDist : Emb → Emb → ℚ) (q : Emb)
    (c : Chunk Emb Meta V) : SearchRow Meta :=
  { id := c.id
    document_id := c.document_id
    content := c.content
    chunk_index := c.chunk_index
    metadata := c.metadata
    score := 1 - cosDist c.embedding q }

/-- The `WHERE` clause of `match_chunks` (module 4 migration): owner scope,
similarity strictly above the threshold, and the optional jsonb containment
filter (`p_metadata_filter IS NULL OR c.metadata @> p_metadata_filter`). -/
def matchWhere {Emb Meta V : Type} (cosDist : Emb → Emb → ℚ)
    (jsonbContains : Meta → Meta → Bool) (q : Emb) (t : ℚ) (uid : Nat)
    (filt : Option Meta) (c : Chunk Emb Meta V) : Bool :=
  c.user_id == uid &&
    (decide (t < 1 - cosDist c.embedding q) &&
      (match filt with
       | none => true
       | some f => jsonbContains c.metadata f))

/-- The `match_chunks` SQL function (module 4 migration, the 5-parameter
version with `p_metadata_filter DEFAULT NULL`): select the owner's chunks
above the similarity threshold and passing the metadata filter, order by
cosine distance to the query (ascending, i.e. similarity descending), and
`LIMIT match_count`.  `cosDist` stands for the pgvector `<=>` operator and
`jsonbContains` for jsonb `@>`. -/
def match_chunks {Emb Meta V : Type} (cosDist : Emb → Emb → ℚ)
    (jsonbContains : Meta → Meta → Bool) (chunks : List (Chunk Emb Meta V))
    (query_embedding : Emb) (match_threshold : ℚ) (match_count : Nat)
    (p_user_id : Nat) (p_metadata_filter : Option Meta) :
    List (SearchRow Meta) :=
  let selected := chunks.filter
    (matchWhere cosDist jsonbContains query_embedding match_threshold
      p_user_id p_metadata_filter)
  let ordered := List.insertionSort (fun a b =>
    cosDist a.embedding query_embedding ≤ cosDist b.embedding query_embedding) selected
  (ordered.take match_count).map (matchRow cosDist query_embedding)

/-- The original 4-parameter `match_chunks` (initial schema / flexible
dimensions migration): same body with no metadata clause in the `WHERE`. -/
def match_chunks_nofilter {Emb Meta V : Type} (cosDist : Emb → Emb → ℚ)
    (chunks : List (Chunk Emb Meta V)) (query_embedding : Emb)
    (match_threshold : ℚ) (match_count : Nat) (p_user_id : Nat) :
    List (SearchRow Meta) :=
  let selected := chunks.filter (fun c =>
    c.user_id == p_user_id &&
      (decide (match_threshold < 1 - cosDist c.embedding query_embedding) && true))
  let ordered := List.insertionSort (fun a b =>
    cosDist a.embedding query_embedding ≤ cosDist b.embedding query_embedding) selected
  (ordered.take match_count).map (matchRow cosDist query_embedding)

/-- Projection of a chunk to a `keyword_search_chunks` result row:
`rank = ts_rank_cd(c.search_vector, tsq)`. -/
def keywordRow {Emb Meta V Q : Type} (tsRankCd : V → Q → ℚ) (tsq : Q)
    (c : Chunk Emb Meta V) : SearchRow Meta :=
  { id := c.id
    document_id := c.document_id
    content := c.content
    chunk_index := c.chunk_index
    metadata := c.metadata
    score := tsRankCd c.search_vector tsq }

/-- The `WHERE` clause of `keyword_search_chunks` (module 6 migration):
owner scope, full-text match (`c.search_vector @@ tsq`) and the optional
jsonb containment filter. -/
def keywordWhere {Emb Meta V Q : Type} (tsMatch : V → Q → Bool)
    (jsonbContains : Meta → Meta → Bool) (tsq : Q) (uid : Nat)
    (filt : Option Meta) (c : Chunk Emb Meta V) : Bool :=
  c.user_id == uid &&
    (tsMatch c.search_vector tsq &&
      (match filt with
       | none => true
       | some f => jsonbContains c.metadata f))

/-- The `keyword_search_chunks` SQL function (module 6 migration).
`websearchToTsquery` stands for `websearch_to_tsquery('english', ·)`, with
`none` covering both the NULL and the empty-tsquery results of the parse
(the `IF tsq IS NULL OR tsq = ''::tsquery THEN RETURN` guard); `tsMatch` is
the `@@` operator and `tsRankCd` is `ts_rank_cd`.  Results are ordered by
rank descending and truncated to `p_match_count`. -/
def keyword_search_chunks {Emb Meta V Q : Type}
    (websearchToTsquery : String → Option Q) (tsMatch : V → Q → Bool)
    (tsRankCd : V → Q → ℚ) (jsonbContains : Meta → Meta → Bool)
    (chunks : List (Chunk Emb Meta V)) (p_query : String)
    (p_match_count : Nat) (p_user_id : Nat) (p_metadata_filter : Option Meta) :
    List (SearchRow Meta) :=
  match websearchToTsquery p_query with
  | none => []
  | some tsq =>
    let selected := chunks.filter
      (keywordWhere tsMatch jsonbContains tsq p_user_id p_metadata_filter)
    let ordered := List.insertionSort (fun a b =>
      tsRankCd b.search_vector tsq ≤ tsRankCd a.search_vector tsq) selected
    (ordered.take p_match_count).map (keywordRow tsRankCd tsq)

/-- Keyword ranking with no metadata restriction, following the spec's words
that with a null filter the keyword path does not restrict by metadata;
compared below with `keyword_search_chunks` applied to a `none` filter. -/
def keyword_search_chunks_nofilter {Emb Meta V Q : Type}
    (websearchToTsquery : String → Option Q) (tsMatch : V → Q → Bool)
    (tsRankCd : V → Q → ℚ) (chunks : List (Chunk Emb Meta V))
    (p_query : String) (p_match_count : Nat) (p_user_id : Nat) :
    List (SearchRow Meta) :=
  match websearchToTsquery p_query with
  | none => []
  | some tsq =>
    let selected := chunks.filter (fun c =>
      c.user_id == p_user_id && (tsMatch c.search_vector tsq && true))
    let ordered := List.insertionSort (fun a b =>
      tsRankCd b.search_vector tsq ≤ tsRankCd a.search_vector tsq) selected
    (ordered.take p_match_count).map (keywordRow tsRankCd tsq)

/-- Every row of the filter–sort–take–project pipeline used by both search
functions comes from a store chunk that passed the `WHERE` clause. -/
theorem mem_search_pipeline {α β : Type} {p : α → Bool} {ord : α → α → Prop}
    [DecidableRel ord] {n : Nat} {proj : α → β} {l : List α} {r : β}
    (h : r ∈ ((List.insertionSort ord (l.filter p)).take n).map proj) :
    ∃ c, c ∈ l ∧ p c = true ∧ r = proj c := by
  obtain ⟨c, hc, rfl⟩ := List.mem_map.1 h
  have hc2 : c ∈ List.insertionSort ord (l.filter p) := List.mem_of_mem_take hc
  have hc3 : c ∈ l.filter p := (List.perm_insertionSort ord (l.filter p)).mem_iff.1 hc2
  have hc4 := List.mem_filter.1 hc3
  exact ⟨c, hc4.1, hc4.2, rfl⟩

/-- Sortedness of the filter–sort–take–project pipeline, transported along a
projection. -/
theorem pairwise_search_pipeline {α β : Type} {ord : α → α → Prop}
    [DecidableRel ord] {R : β → β → Prop} (proj : α → β) (n : Nat) (l : List α)
    (htrans : ∀ a b c, ord a b → ord b c → ord a c)
    (htotal : ∀ a b, ord a b ∨ ord b a)
    (himp : ∀ a b, ord a b → R (proj a) (proj b)) :
    (((List.insertionSort ord l).take n).map proj).Pairwise R := by
  haveI : IsTotal α ord := ⟨htotal⟩
  haveI : IsTrans α ord := ⟨htrans⟩
  have hs : (List.insertionSort ord l).Pairwise ord :=
    List.sorted_insertionSort ord l
  have ht : ((List.insertionSort ord l).take n).Pairwise ord :=
    List.Pairwise.sublist (List.take_sublist n _) hs
  exact List.pairwise_map.2 (ht.imp (fun h => himp _ _ h))

/-- C1: `match_chunks` returns only rows whose similarity
(`1 - cosine distance` to the query) is strictly above the threshold, in
order of decreasing similarity, and at most `match_count` of them. -/
theorem match_chunks_threshold_order_cap {Emb Meta V : Type}
    (cosDist : Emb → Emb → ℚ) (jsonbContains : Meta → Meta → Bool)
    (chunks : List (Chunk Emb Meta V)) (q : Emb) (t : ℚ) (n : Nat)
    (uid : Nat) (filt : Option Meta) :
    (match_chunks cosDist jsonbContains chunks q t n uid filt).length ≤ n ∧
    (∀ r ∈ match_chunks cosDist jsonbContains chunks q t n uid filt,
      ∃ c, c ∈ chunks ∧ r = matchRow cosDist q c ∧
        r.score = 1 - cosDist c.embedding q ∧ t < r.score) ∧
    (match_chunks cosDist jsonbContains chunks q t n uid filt).Pairwise
      (fun a b => b.score ≤ a.score) := by
  refine ⟨?_, ?_, ?_⟩
  · simp only [match_chunks, List.length_map]
    exact List.length_take_le n _
  · intro r hr
    obtain ⟨c, hcl, hp, rfl⟩ := mem_search_pipeline hr
    simp only [matchWhere, Bool.and_eq_true, decide_eq_true_eq] at hp
    exact ⟨c, hcl, rfl, rfl, hp.2.1⟩
  · apply pairwise_search_pipeline
    · intro a b c hab hbc
      exact le_trans hab hbc
    · intro a b
      exact le_total _ _
    · intro a b h
      simpa [matchRow] using sub_le_sub_left h 1

/-- A tiny concrete chunk store used to instantiate the search theorems. -/
def demoChunkA : Chunk ℚ Nat Nat :=
  ⟨1, 10, 7, "alpha", 0, 0, 3, 5⟩

/-- A second concrete chunk, owned by a different user. -/
def demoChunkB : Chunk ℚ Nat Nat :=
  ⟨2, 11, 8, "beta", 0, 2, 4, 6⟩

/-- A concrete stand-in for the pgvector cosine distance in witnesses. -/
def demoDist : ℚ → ℚ → ℚ := fun _ _ => 0

/-- Concrete instantiation of `match_chunks_threshold_order_cap`: the single
row returned on a one-chunk store is characterised by the theorem. -/
theorem match_chunks_threshold_order_cap_witness :
    matchRow demoDist 0 demoChunkA ∈
        match_chunks demoDist (fun m f : Nat => m == f) [demoChunkA] 0 0 1 7 none ∧
    ∃ c, c ∈ [demoChunkA] ∧ matchRow demoDist 0 demoChunkA = matchRow demoDist 0 c ∧
      (matchRow demoDist 0 demoChunkA).score = 1 - demoDist c.embedding 0 ∧
      (0 : ℚ) < (matchRow demoDist 0 demoChunkA).score :=
  ⟨by norm_num [match_chunks, matchWhere, matchRow, demoDist, demoChunkA],
    (match_chunks_threshold_order_cap demoDist (fun m f : Nat => m == f)
        [demoChunkA] 0 0 1 7 none).2.1 (matchRow demoDist 0 demoChunkA)
      (by norm_num [match_chunks, matchWhere, matchRow, demoDist, demoChunkA])⟩

/-- C2: `keyword_search_chunks` returns nothing when the text-search parse of
the query yields no tokens (`websearch_to_tsquery` NULL or empty), for every
owner, count and metadata filter; when the parse yields a tsquery, every
returned row comes from a chunk whose `search_vector` matches it (`@@`). -/
theorem keyword_search_no_tokens_and_match {Emb Meta V Q : Type}
    (websearchToTsquery : String → Option Q) (tsMatch : V → Q → Bool)
    (tsRankCd : V → Q → ℚ) (jsonbContains : Meta → Meta → Bool)
    (chunks : List (Chunk Emb Meta V)) (q : String) (n uid : Nat)
    (filt : Option Meta) :
    (websearchToTsquery q = none →
      keyword_search_chunks websearchToTsquery tsMatch tsRankCd jsonbContains
        chunks q n uid filt = []) ∧
    (∀ tsq, websearchToTsquery q = some tsq →
      ∀ r ∈ keyword_search_chunks websearchToTsquery tsMatch tsRankCd
          jsonbContains chunks q n uid filt,
        ∃ c, c ∈ chunks ∧ tsMatch c.search_vector tsq = true ∧
          r = keywordRow tsRankCd tsq c) := by
  constructor
  · intro h
    simp [keyword_search_chunks, h]
  · intro tsq h r hr
    simp only [keyword_search_chunks, h] at hr
    obtain ⟨c, hcl, hp, rfl⟩ := mem_search_pipeline hr
    simp only [keywordWhere, Bool.and_eq_true] at hp
    exact ⟨c, hcl, hp.2.1, rfl⟩

/-- A concrete stand-in for `websearch_to_tsquery`, mapping pure punctuation
to no tokens and other queries to their length. -/
def demoParseQuery : String → Option Nat :=
  fun s => if s = "???" then none else some s.length

/-- A concrete stand-in for the tsquery match operator in witnesses. -/
def demoTsMatch : Nat → Nat → Bool := fun _ _ => true

/-- A concrete stand-in for `ts_rank_cd` in witnesses. -/
def demoTsRank : Nat → Nat → ℚ := fun _ _ => 0

/-- Concrete instantiation of `keyword_search_no_tokens_and_match`: the query
`???` parses to no tokens and returns nothing; the query `hi` parses to a
tsquery and its returned row comes from a matching chunk. -/
theorem keyword_search_no_tokens_and_match_witness :
    (demoParseQuery "???" = none ∧
      keyword_search_chunks demoParseQuery demoTsMatch demoTsRank
        (fun m f : Nat => m == f) [demoChunkA] "???" 5 7 none = []) ∧
    (demoParseQuery "hi" = some 2 ∧
      keywordRow demoTsRank 2 demoChunkA ∈
        keyword_search_chunks demoParseQuery demoTsMatch demoTsRank
          (fun m f : Nat => m == f) [demoChunkA] "hi" 5 7 none ∧
      ∃ c, c ∈ [demoChunkA] ∧ demoTsMatch c.search_vector 2 = true ∧
        keywordRow demoTsRank 2 demoChunkA = keywordRow demoTsRank 2 c) :=
  ⟨⟨rfl,
    (keyword_search_no_tokens_and_match demoParseQuery demoTsMatch demoTsRank
        (fun m f : Nat => m == f) [demoChunkA] "???" 5 7 none).1 rfl⟩,
   ⟨rfl,
    by decide,
    (keyword_search_no_tokens_and_match demoParseQuery demoTsMatch demoTsRank
        (fun m f : Nat => m == f) [demoChunkA] "hi" 5 7 none).2 2 rfl
      (keywordRow demoTsRank 2 demoChunkA)
      (by decide)⟩⟩

/-- C3: both retrieval paths apply the same jsonb containment predicate to a
non-null metadata filter — every row either path returns has metadata
containing the filter — and with a null filter each path coincides with its
unfiltered form (`match_chunks` with the original 4-parameter body, and the
keyword ranking with the metadata conjunct dropped). -/
theorem metadata_filter_like_for_like {Emb Meta V Q : Type}
    (cosDist : Emb → Emb → ℚ) (jsonbContains : Meta → Meta → Bool)
    (websearchToTsquery : String → Option Q) (tsMatch : V → Q → Bool)
    (tsRankCd : V → Q → ℚ) (chunks : List (Chunk Emb Meta V)) (qe : Emb)
    (t : ℚ) (n uid : Nat) (s : String) (f : Meta) :
    (∀ r ∈ match_chunks cosDist jsonbContains chunks qe t n uid (some f),
      jsonbContains r.metadata f = true) ∧
    (∀ r ∈ keyword_search_chunks websearchToTsquery tsMatch tsRankCd
        jsonbContains chunks s n uid (some f),
      jsonbContains r.metadata f = true) ∧
    match_chunks cosDist jsonbContains chunks qe t n uid none =
      match_chunks_nofilter cosDist chunks qe t n uid ∧
    keyword_search_chunks websearchToTsquery tsMatch tsRankCd jsonbContains
        chunks s n uid none =
      keyword_search_chunks_nofilter websearchToTsquery tsMatch tsRankCd
        chunks s n uid := by
  refine ⟨?_, ?_, rfl, rfl⟩
  · intro r hr
    obtain ⟨c, _, hp, rfl⟩ := mem_search_pipeline hr
    simp only [matchWhere, Bool.and_eq_true] at hp
    exact hp.2.2
  · intro r hr
    cases hws : websearchToTsquery s with
    | none => simp [keyword_search_chunks, hws] at hr
    | some tsq =>
      simp only [keyword_search_chunks, hws] at hr
      obtain ⟨c, _, hp, rfl⟩ := mem_search_pipeline hr
      simp only [keywordWhere, Bool.and_eq_true] at hp
      exact hp.2.2

/-- Concrete instantiation of `metadata_filter_like_for_like`: with filter 3
on a store whose only chunk has metadata 3, the returned rows of both paths
satisfy the containment check. -/
theorem metadata_filter_like_for_like_witness :
    (matchRow demoDist 0 demoChunkA ∈
        match_chunks demoDist (fun m f : Nat => m == f) [demoChunkA] 0 0 1 7
          (some 3) ∧
      (fun m f : Nat => m == f) (matchRow demoDist 0 demoChunkA).metadata 3 =
        true) ∧
    (keywordRow demoTsRank 2 demoChunkA ∈
        keyword_search_chunks demoParseQuery demoTsMatch demoTsRank
          (fun m f : Nat => m == f) [demoChunkA] "hi" 5 7 (some 3) ∧
      (fun m f : Nat => m == f) (keywordRow demoTsRank 2 demoChunkA).metadata 3 =
        true) :=
  ⟨⟨by norm_num [match_chunks, matchWhere, matchRow, demoDist, demoChunkA],
    (metadata_filter_like_for_like demoDist (fun m f : Nat => m == f)
        demoParseQuery demoTsMatch demoTsRank [demoChunkA] 0 0 1 7 "hi" 3).1
      (matchRow demoDist 0 demoChunkA)
      (by norm_num [match_chunks, matchWhere, matchRow, demoDist, demoChunkA])⟩,
   ⟨by decide,
    (metadata_filter_like_for_like demoDist (fun m f : Nat => m == f)
        demoParseQuery demoTsMatch demoTsRank [demoChunkA] 0 0 5 7 "hi" 3).2.1
      (keywordRow demoTsRank 2 demoChunkA) (by decide)⟩⟩

/-- Splitting a conjunctive `WHERE` clause into two filter passes. -/
theorem filter_owner_split {α : Type} (pOwn rest : α → Bool) (l : List α) :
    l.filter (fun c => pOwn c && rest c) = (l.filter pOwn).filter rest := by
  rw [List.filter_filter]
  congr 1
  funext c
  exact Bool.and_comm _ _

/-- C4, owner scoping half for `match_chunks`: see
`search_owner_scoped_noninterference`. -/
theorem match_chunks_owner_congr {Emb Meta V : Type}
    (cosDist : Emb → Emb → ℚ) (jsonbContains : Meta → Meta → Bool)
    (chunks₁ chunks₂ : List (Chunk Emb Meta V)) (qe : Emb) (t : ℚ)
    (n uid : Nat) (filt : Option Meta)
    (h : chunks₁.filter (fun c => c.user_id == uid) =
      chunks₂.filter (fun c => c.user_id == uid)) :
    match_chunks cosDist jsonbContains chunks₁ qe t n uid filt =
      match_chunks cosDist jsonbContains chunks₂ qe t n uid filt := by
  unfold match_chunks
  have e : ∀ l : List (Chunk Emb Meta V),
      l.filter (matchWhere cosDist jsonbContains qe t uid filt) =
        (l.filter (fun c => c.user_id == uid)).filter
          (fun c => decide (t < 1 - cosDist c.embedding qe) &&
            (match filt with
             | none => true
             | some f => jsonbContains c.metadata f)) := by
    intro l
    rw [List.filter_filter]
    congr 1
    funext c
    simp only [matchWhere]
    exact Bool.and_comm _ _
  rw [e chunks₁, e chunks₂, h]

/-- C4, owner scoping half for `keyword_search_chunks`: see
`search_owner_scoped_noninterference`. -/
theorem keyword_search_chunks_owner_congr {Emb Meta V Q : Type}
    (websearchToTsquery : String → Option Q) (tsMatch : V → Q → Bool)
    (tsRankCd : V → Q → ℚ) (jsonbContains : Meta → Meta → Bool)
    (chunks₁ chunks₂ : List (Chunk Emb Meta V)) (s : String) (n uid : Nat)
    (filt : Option Meta)
    (h : chunks₁.filter (fun c => c.user_id == uid) =
      chunks₂.filter (fun c => c.user_id == uid)) :
    keyword_search_chunks websearchToTsquery tsMatch tsRankCd jsonbContains
        chunks₁ s n uid filt =
      keyword_search_chunks websearchToTsquery tsMatch tsRankCd jsonbContains
        chunks₂ s n uid filt := by
  unfold keyword_search_chunks
  cases hws : websearchToTsquery s with
  | none => rfl
  | some tsq =>
    have e : ∀ l : List (Chunk Emb Meta V),
        l.filter (keywordWhere tsMatch jsonbContains tsq uid filt) =
          (l.filter (fun c => c.user_id == uid)).filter
            (fun c => tsMatch c.search_vector tsq &&
              (match filt with
               | none => true
               | some f => jsonbContains c.metadata f)) := by
      intro l
      rw [List.filter_filter]
      congr 1
      funext c
      simp only [keywordWhere]
      exact Bool.and_comm _ _
    simp only [e chunks₁, e chunks₂, h]

/-- C4: every row either search function returns belongs to a chunk of the
requested owner, and both functions are invariant under arbitrary changes to
other owners' chunks: stores agreeing on the owner's chunk sublist produce
identical results. -/
theorem search_owner_scoped_noninterference {Emb Meta V Q : Type}
    (cosDist : Emb → Emb → ℚ) (jsonbContains : Meta → Meta → Bool)
    (websearchToTsquery : String → Option Q) (tsMatch : V → Q → Bool)
    (tsRankCd : V → Q → ℚ) (chunks chunks₁ chunks₂ : List (Chunk Emb Meta V))
    (qe : Emb) (t : ℚ) (n uid : Nat) (filt : Option Meta) (s : String) :
    (∀ r ∈ match_chunks cosDist jsonbContains chunks qe t n uid filt,
      ∃ c, c ∈ chunks ∧ c.user_id = uid ∧ r = matchRow cosDist qe c) ∧
    (∀ r ∈ keyword_search_chunks websearchToTsquery tsMatch tsRankCd
        jsonbContains chunks s n uid filt,
      ∃ c, c ∈ chunks ∧ c.user_id = uid ∧ r.id = c.id ∧
        r.document_id = c.document_id ∧ r.content = c.content ∧
        r.metadata = c.metadata) ∧
    (chunks₁.filter (fun c => c.user_id == uid) =
        chunks₂.filter (fun c => c.user_id == uid) →
      match_chunks cosDist jsonbContains chunks₁ qe t n uid filt =
          match_chunks cosDist jsonbContains chunks₂ qe t n uid filt ∧
        keyword_search_chunks websearchToTsquery tsMatch tsRankCd jsonbContains
            chunks₁ s n uid filt =
          keyword_search_chunks websearchToTsquery tsMatch tsRankCd
            jsonbContains chunks₂ s n uid filt) := by
  refine ⟨?_, ?_, ?_⟩
  · intro r hr
    obtain ⟨c, hcl, hp, rfl⟩ := mem_search_pipeline hr
    simp only [matchWhere, Bool.and_eq_true] at hp
    exact ⟨c, hcl, eq_of_beq hp.1, rfl⟩
  · intro r hr
    cases hws : websearchToTsquery s with
    | none => simp [keyword_search_chunks, hws] at hr
    | some tsq =>
      simp only [keyword_search_chunks, hws] at hr
      obtain ⟨c, hcl, hp, rfl⟩ := mem_search_pipeline hr
      simp only [keywordWhere, Bool.and_eq_true] at hp
      exact ⟨c, hcl, eq_of_beq hp.1, rfl, rfl, rfl, rfl⟩
  · intro h
    exact ⟨match_chunks_owner_congr cosDist jsonbContains chunks₁ chunks₂
        qe t n uid filt h,
      keyword_search_chunks_owner_congr websearchToTsquery tsMatch tsRankCd
        jsonbContains chunks₁ chunks₂ s n uid filt h⟩

/-- Concrete instantiation of `search_owner_scoped_noninterference`: a store
with a foreign chunk added produces the same results for owner 7 as the
store without it. -/
theorem search_owner_scoped_noninterference_witness :
    ([demoChunkA, demoChunkB].filter (fun c => c.user_id == 7) =
      [demoChunkA].filter (fun c => c.user_id == 7)) ∧
    (match_chunks demoDist (fun m f : Nat => m == f) [demoChunkA, demoChunkB]
        0 0 1 7 none =
      match_chunks demoDist (fun m f : Nat => m == f) [demoChunkA] 0 0 1 7
        none ∧
    keyword_search_chunks demoParseQuery demoTsMatch demoTsRank
        (fun m f : Nat => m == f) [demoChunkA, demoChunkB] "hi" 5 7 none =
      keyword_search_chunks demoParseQuery demoTsMatch demoTsRank
        (fun m f : Nat => m == f) [demoChunkA] "hi" 5 7 none) :=
  ⟨by decide,
    (search_owner_scoped_noninterference demoDist (fun m f : Nat => m == f)
        demoParseQuery demoTsMatch demoTsRank [demoChunkA]
        [demoChunkA, demoChunkB] [demoChunkA] 0 0 1 7 none "hi").2.2
      (by decide)⟩

/-- Document processing status (`status` CHECK constraint of the `documents`
table). -/
inductive DocStatus where
  | pending
  | processing
  | completed
  | failed
deriving DecidableEq

/-- A row of the `documents` table (`001_initial_schema.sql` plus the
module 3 `content_hash` column); the fingerprint is modelled as a natural
number. -/
structure Document where
  id : Nat
  user_id : Nat
  filename : String
  file_type : String
  file_size : Nat
  storage_path : String
  status : DocStatus
  error_message : Option String
  chunk_count : Nat
  content_hash : Option Nat
deriving DecidableEq

/-- The persisted store: the `documents` and `chunks` tables. -/
structure Store (Emb Meta V : Type) where
  documents : List Document
  chunks : List (Chunk Emb Meta V)
deriving DecidableEq

/-- `DELETE FROM documents WHERE id = d` together with the
`ON DELETE CASCADE` action of the `chunks.document_id` foreign key. -/
def deleteDocumentCascade {Emb Meta V : Type} (s : Store Emb Meta V)
    (d : Nat) : Store Emb Meta V :=
  { documents := s.documents.filter (fun doc => !(doc.id == d))
    chunks := s.chunks.filter (fun c => !(c.document_id == d)) }

/-- Deleting an `auth.users` row `u`: both `documents.user_id` and
`chunks.user_id` reference it with `ON DELETE CASCADE`, and chunks of the
deleted documents are cascade-deleted in turn, so a chunk survives exactly
when its owner is not `u` and a document with its `document_id` remains. -/
def deleteUserCascade {Emb Meta V : Type} (s : Store Emb Meta V)
    (u : Nat) : Store Emb Meta V :=
  let docs := s.documents.filter (fun doc => !(doc.user_id == u))
  { documents := docs
    chunks := s.chunks.filter (fun c =>
      !(c.user_id == u) && docs.any (fun doc => doc.id == c.document_id)) }

/-- The write operations the schema admits on the two tables.  Chunk
insertion carries the NOT NULL `REFERENCES documents(id)` foreign-key check;
document insertion carries primary-key freshness; document updates (the
Indexer's status/metadata writes) preserve the row id. -/
inductive DBStep {Emb Meta V : Type} :
    Store Emb Meta V → Store Emb Meta V → Prop where
  | insertDocument (s : Store Emb Meta V) (doc : Document)
      (fresh : ∀ d ∈ s.documents, d.id ≠ doc.id) :
      DBStep s { s with documents := doc :: s.documents }
  | updateDocument (s : Store Emb Meta V) (i : Nat) (f : Document → Document)
      (hid : ∀ d, (f d).id = d.id) :
      DBStep s { s with
        documents := s.documents.map (fun d => if d.id = i then f d else d) }
  | insertChunk (s : Store Emb Meta V) (c : Chunk Emb Meta V)
      (fk : ∃ d ∈ s.documents, d.id = c.document_id) :
      DBStep s { s with chunks := c :: s.chunks }
  | deleteChunksOfDocument (s : Store Emb Meta V) (d : Nat) :
      DBStep s { s with
        chunks := s.chunks.filter (fun c => !(c.document_id == d)) }
  | deleteDocument (s : Store Emb Meta V) (d : Nat) :
      DBStep s (deleteDocumentCascade s d)
  | deleteUser (s : Store Emb Meta V) (u : Nat) :
      DBStep s (deleteUserCascade s u)

/-- States reachable from the empty store through schema operations. -/
inductive DBReachable {Emb Meta V : Type} : Store Emb Meta V → Prop where
  | init : DBReachable { documents := [], chunks := [] }
  | step {s t : Store Emb Meta V} :
      DBReachable s → DBStep s t → DBReachable t

/-- The foreign-key invariant: every chunk references an existing document. -/
def chunkFKInv {Emb Meta V : Type} (s : Store Emb Meta V) : Prop :=
  ∀ c ∈ s.chunks, ∃ d ∈ s.documents, d.id = c.document_id

/-- Every schema operation preserves the chunk foreign-key invariant. -/
theorem chunkFKInv_preserved {Emb Meta V : Type} {s t : Store Emb Meta V}
    (hstep : DBStep s t) (hinv : chunkFKInv s) : chunkFKInv t := by
  cases hstep with
  | insertDocument doc fresh =>
    intro c hc
    obtain ⟨d, hd, hdc⟩ := hinv c hc
    exact ⟨d, List.mem_cons_of_mem _ hd, hdc⟩
  | updateDocument i f hid =>
    intro c hc
    obtain ⟨d, hd, hdc⟩ := hinv c hc
    refine ⟨if d.id = i then f d else d, List.mem_map.2 ⟨d, hd, rfl⟩, ?_⟩
    by_cases hdi : d.id = i
    · simp only [if_pos hdi, hid d]
      exact hdc
    · simp only [if_neg hdi]
      exact hdc
  | insertChunk c fk =>
    intro c' hc'
    rcases List.mem_cons.1 hc' with rfl | h
    · exact fk
    · exact hinv c' h
  | deleteChunksOfDocument d =>
    intro c hc
    exact hinv c (List.mem_filter.1 hc).1
  | deleteDocument d =>
    intro c hc
    have h2 := List.mem_filter.1 hc
    obtain ⟨dd, hdd, hid2⟩ := hinv c h2.1
    refine ⟨dd, List.mem_filter.2 ⟨hdd, ?_⟩, hid2⟩
    simpa [hid2] using h2.2
  | deleteUser u =>
    intro c hc
    have h2 := List.mem_filter.1 hc
    have h3 := h2.2
    simp only [Bool.and_eq_true] at h3
    obtain ⟨dd, hdd, hddc⟩ := List.any_eq_true.1 h3.2
    exact ⟨dd, hdd, eq_of_beq hddc⟩

/-- Every reachable store satisfies the chunk foreign-key invariant. -/
theorem reachable_chunkFKInv {Emb Meta V : Type} {s : Store Emb Meta V}
    (h : DBReachable s) : chunkFKInv s := by
  induction h with
  | init => intro c hc; exact absurd hc (List.not_mem_nil c)
  | step _ hstep ih => exact chunkFKInv_preserved hstep ih

/-- C6: deleting a document removes exactly the chunks referencing it
(every chunk referencing `d` is gone, every other chunk is kept), and in
every reachable store each chunk's document reference names an existing
document. -/
theorem delete_cascade_and_no_orphans {Emb Meta V : Type}
    (s : Store Emb Meta V) (d : Nat) :
    (∀ c ∈ (deleteDocumentCascade s d).chunks, c.document_id ≠ d) ∧
    (∀ c ∈ s.chunks, c.document_id ≠ d →
      c ∈ (deleteDocumentCascade s d).chunks) ∧
    (DBReachable s → chunkFKInv s) := by
  refine ⟨?_, ?_, reachable_chunkFKInv⟩
  · intro c hc
    have h2 := (List.mem_filter.1 hc).2
    simpa using h2
  · intro c hc hne
    exact List.mem_filter.2 ⟨hc, by simpa using hne⟩

/-- A concrete document owning `demoChunkA`. -/
def demoDoc : Document :=
  ⟨10, 7, "a.txt", "txt", 5, "7/a.txt", DocStatus.completed, none, 1, some 42⟩

/-- A concrete store holding `demoDoc` and its chunk. -/
def demoStore : Store ℚ Nat Nat :=
  ⟨[demoDoc], [demoChunkA]⟩

/-- Concrete instantiation of `delete_cascade_and_no_orphans`: `demoStore`
is reachable (insert the document, then its chunk), so it satisfies the
foreign-key invariant, and deleting an unrelated document keeps its chunk. -/
theorem delete_cascade_and_no_orphans_witness :
    demoChunkA.document_id ≠ 99 ∧ chunkFKInv demoStore :=
  ⟨(delete_cascade_and_no_orphans demoStore 99).1 demoChunkA (by decide),
   (delete_cascade_and_no_orphans demoStore 99).2.2
     (DBReachable.step
       (DBReachable.step DBReachable.init
         (DBStep.insertDocument ⟨[], []⟩ demoDoc
           (fun d hd => absurd hd (List.not_mem_nil d))))
       (DBStep.insertChunk ⟨[demoDoc], []⟩ demoChunkA
         ⟨demoDoc, by decide, by decide⟩))⟩

/-- A file handed to the upload UI (`File` in `DocumentUpload`): its name
and byte size. -/
structure FileDesc where
  name : String
  size : Nat
deriving DecidableEq

/-- `ALLOWED_EXTENSIONS` from `DocumentUpload`. -/
def ALLOWED_EXTENSIONS : List String := [".txt", ".md"]

/-- Splitting a character list at every occurrence of a separator, the
semantics of the JavaScript `String.prototype.split` with a one-character
separator (an empty input yields one empty segment, like JS). -/
def splitOnChar (sep : Char) : List Char → List (List Char)
  | [] => [[]]
  | c :: rest =>
    if c = sep then [] :: splitOnChar sep rest
    else
      match splitOnChar sep rest with
      | [] => [[c]]
      | l :: ls => (c :: l) :: ls

/-- The extension computed by `validateFile`:
`'.' + file.name.split('.').pop()?.toLowerCase()` — a dot followed by the
lower-cased last dot-separated component of the name. -/
def fileExt (name : String) : String :=
  ⟨'.' :: ((splitOnChar '.' name.data).getLastD []).map Char.toLower⟩

/-- `validateFile` from `DocumentUpload`: rejects extensions outside the
allowlist, then sizes above 10 MB, otherwise accepts. -/
def validateFile (f : FileDesc) : Option String :=
  if ¬ (ALLOWED_EXTENSIONS.contains (fileExt f.name)) then
    some ("Unsupported file type. Allowed: " ++
      String.intercalate ", " ALLOWED_EXTENSIONS)
  else if f.size > 10 * 1024 * 1024 then
    some "File too large. Maximum size is 10 MB."
  else
    none

/-- The upload response of the backend as consumed by `handleUpload`
(`UploadDocumentResult`): the document summary with the `skipped` flag
marking an unchanged re-upload. -/
structure UploadResult where
  document_id : Nat
  skipped : Bool
deriving DecidableEq

/-- The UI outcome of one `handleUpload` call: the error banner, the info
banner and the list of files for which an upload request was issued. -/
structure UploadUIState where
  error : Option String
  info : Option String
  uploaded : List String
deriving DecidableEq

/-- `handleUpload` from `DocumentUpload`: validate every file first and stop
at the first validation error without issuing any upload; otherwise upload
each file (`uploadFn` models `await uploadDocument(file)`, here with every
request succeeding), collect the names whose result is flagged `skipped`,
and surface them in the info banner. -/
def handleUpload (uploadFn : FileDesc → UploadResult)
    (files : List FileDesc) : UploadUIState :=
  match files.findSome? validateFile with
  | some e => { error := some e, info := none, uploaded := [] }
  | none =>
    let results := files.map (fun f => (f, uploadFn f))
    let skippedFiles := (results.filter (fun fr => fr.2.skipped)).map
      (fun fr => fr.1.name)
    { error := none
      info :=
        if skippedFiles.isEmpty then none
        else some ("\"" ++ String.intercalate "\", \"" skippedFiles ++
          "\" is unchanged — skipped re-processing.")
      uploaded := files.map (fun f => f.name) }

/-- C8: a file whose computed extension is outside the allowlist or whose
size exceeds 10 MB fails validation; any invalid file in a batch makes
`handleUpload` surface an error and issue no upload request at all; a file
whose extension is allowlisted and whose size is within the bound passes
validation. -/
theorem upload_validation_rejects_and_accepts (files : List FileDesc)
    (f : FileDesc) (uploadFn : FileDesc → UploadResult) :
    (fileExt f.name ∉ ALLOWED_EXTENSIONS ∨ 10 * 1024 * 1024 < f.size →
      (validateFile f).isSome = true) ∧
    (f ∈ files → (validateFile f).isSome = true →
      (handleUpload uploadFn files).uploaded = [] ∧
      (handleUpload uploadFn files).error.isSome = true) ∧
    (fileExt f.name ∈ ALLOWED_EXTENSIONS →
      f.size ≤ 10 * 1024 * 1024 → validateFile f = none) := by
  refine ⟨?_, ?_, ?_⟩
  · intro h
    unfold validateFile
    rcases h with h | h
    · rw [if_pos (by simpa using h)]
      rfl
    · by_cases hext : fileExt f.name ∈ ALLOWED_EXTENSIONS
      · rw [if_neg (by simpa using hext), if_pos h]
        rfl
      · rw [if_pos (by simpa using hext)]
        rfl
  · intro hmem hsome
    have hfind : (files.findSome? validateFile).isSome = true := by
      rcases hfs : files.findSome? validateFile with _ | e
      · rw [List.findSome?_eq_none_iff] at hfs
        rw [hfs f hmem] at hsome
        exact absurd hsome (by simp)
      · rfl
    rcases hfs : files.findSome? validateFile with _ | e
    · rw [hfs] at hfind
      exact absurd hfind (by simp)
    · constructor
      · simp [handleUpload, hfs]
      · simp [handleUpload, hfs]
  · intro hext hsize
    unfold validateFile
    rw [if_neg (by simpa using hext), if_neg (by omega)]

/-- Concrete instantiation of `upload_validation_rejects_and_accepts`: a
batch holding an oversized `.pdf` issues no upload and surfaces an error,
while a small `.txt` passes validation. -/
theorem upload_validation_rejects_and_accepts_witness :
    ((fileExt "big.pdf" ∉ ALLOWED_EXTENSIONS ∨
        10 * 1024 * 1024 < 20000000) ∧
      (validateFile ⟨"big.pdf", 20000000⟩).isSome = true) ∧
    (⟨"big.pdf", 20000000⟩ ∈ [(⟨"ok.txt", 100⟩ : FileDesc), ⟨"big.pdf", 20000000⟩] ∧
      (handleUpload (fun _ => ⟨1, false⟩)
        [(⟨"ok.txt", 100⟩ : FileDesc), ⟨"big.pdf", 20000000⟩]).uploaded = [] ∧
      (handleUpload (fun _ => ⟨1, false⟩)
        [(⟨"ok.txt", 100⟩ : FileDesc), ⟨"big.pdf", 20000000⟩]).error.isSome = true) ∧
    (validateFile ⟨"ok.txt", 100⟩ = none) :=
  ⟨⟨Or.inl (by decide),
    (upload_validation_rejects_and_accepts [] ⟨"big.pdf", 20000000⟩
        (fun _ => ⟨1, false⟩)).1 (Or.inl (by decide))⟩,
   ⟨by decide,
    (upload_validation_rejects_and_accepts
        [(⟨"ok.txt", 100⟩ : FileDesc), ⟨"big.pdf", 20000000⟩]
        ⟨"big.pdf", 20000000⟩ (fun _ => ⟨1, false⟩)).2.1 (by decide) (by decide)⟩,
   (upload_validation_rejects_and_accepts [] ⟨"ok.txt", 100⟩
       (fun _ => ⟨1, false⟩)).2.2 (by decide) (by decide)⟩

/-- The Record Manager verdict (spec §4.1
`decide(owner, filename, rawBytes) -> {new, changed, unchanged}`). -/
inductive UploadDecision where
  | isNew
  | isChanged
  | isUnchanged
deriving DecidableEq

/-- Modelled from the spec: the Record Manager decision function (§4.1).
The FastAPI backend implementing it is not among the visible sources — only
its callers (`uploadDocument`, `handleUpload`) and the `documents.content_hash`
column are — so this follows the spec's words: fingerprint the bytes, look up
the most recent document for (owner, filename); none → new, equal fingerprint
→ unchanged, different fingerprint → changed. -/
def recordManagerDecide {Emb Meta V : Type} (hash : List Nat → Nat)
    (s : Store Emb Meta V) (owner : Nat) (filename : String)
    (bytes : List Nat) : UploadDecision :=
  match s.documents.find? (fun d => d.user_id == owner && d.filename == filename) with
  | none => UploadDecision.isNew
  | some d =>
    if d.content_hash = some (hash bytes) then UploadDecision.isUnchanged
    else UploadDecision.isChanged

/-- Modelled from the spec: the upload endpoint (§6 Upload together with
§4.1), absent from the visible sources.  On `unchanged` it leaves the store
untouched and returns the summary flagged `skipped`; on `new` it creates a
pending document carrying the fingerprint; on `changed` it deletes the prior
document's chunks (full replace) and resets the document to pending with the
new fingerprint. -/
def uploadBackend {Emb Meta V : Type} (hash : List Nat → Nat) (newId : Nat)
    (s : Store Emb Meta V) (owner : Nat) (filename file_type : String)
    (bytes : List Nat) : Store Emb Meta V × UploadResult :=
  match s.documents.find? (fun d => d.user_id == owner && d.filename == filename) with
  | none =>
    ({ s with documents :=
        ⟨newId, owner, filename, file_type, bytes.length,
          toString owner ++ "/" ++ filename, DocStatus.pending, none, 0,
          some (hash bytes)⟩ :: s.documents },
      ⟨newId, false⟩)
  | some old =>
    if old.content_hash = some (hash bytes) then
      (s, ⟨old.id, true⟩)
    else
      ({ documents := s.documents.map (fun d =>
          if d.id = old.id then
            { d with content_hash := some (hash bytes)
                     status := DocStatus.pending
                     chunk_count := 0
                     file_size := bytes.length }
          else d)
         chunks := s.chunks.filter (fun c => !(c.document_id == old.id)) },
        ⟨old.id, false⟩)

/-- C5: re-uploading bytes whose fingerprint equals the stored fingerprint
for (owner, filename) returns a response flagged `skipped` and leaves the
store — every document row (hence `chunk_count`) and every chunk — exactly
as it was; and `handleUpload` reports a skipped result to the user by
setting the info banner. -/
theorem unchanged_upload_skips_and_preserves {Emb Meta V : Type}
    (hash : List Nat → Nat) (newId : Nat) (s : Store Emb Meta V)
    (owner : Nat) (filename ftype : String) (bytes : List Nat) (d : Document)
    (files : List FileDesc) (f : FileDesc)
    (uploadFn : FileDesc → UploadResult)
    (hfind : s.documents.find?
      (fun dd => dd.user_id == owner && dd.filename == filename) = some d)
    (hhash : d.content_hash = some (hash bytes)) :
    (uploadBackend hash newId s owner filename ftype bytes).2.skipped = true ∧
    (uploadBackend hash newId s owner filename ftype bytes).1 = s ∧
    (files.findSome? validateFile = none → f ∈ files →
      (uploadFn f).skipped = true →
      (handleUpload uploadFn files).info.isSome = true) := by
  refine ⟨?_, ?_, ?_⟩
  · simp [uploadBackend, hfind, hhash]
  · simp [uploadBackend, hfind, hhash]
  · intro hval hmem hskip
    have hnamemem : f.name ∈ ((files.map (fun g => (g, uploadFn g))).filter
        (fun fr => fr.2.skipped)).map (fun fr => fr.1.name) := by
      refine List.mem_map.2 ⟨(f, uploadFn f), ?_, rfl⟩
      exact List.mem_filter.2 ⟨List.mem_map.2 ⟨f, hmem, rfl⟩, hskip⟩
    have hne : ¬ (((files.map (fun g => (g, uploadFn g))).filter
        (fun fr => fr.2.skipped)).map (fun fr => fr.1.name)).isEmpty = true := by
      intro hE
      rw [List.isEmpty_iff] at hE
      rw [hE] at hnamemem
      exact absurd hnamemem (List.not_mem_nil _)
    simp only [handleUpload, hval]
    rw [if_neg hne]
    rfl

/-- Concrete instantiation of `unchanged_upload_skips_and_preserves`:
re-uploading the bytes behind `demoDoc`'s stored fingerprint leaves
`demoStore` untouched, reports `skipped`, and the UI shows the info
banner. -/
theorem unchanged_upload_skips_and_preserves_witness :
    (demoStore.documents.find?
        (fun dd => dd.user_id == 7 && dd.filename == "a.txt") = some demoDoc ∧
      demoDoc.content_hash = some ((fun _ => 42) ([1, 2, 3] : List Nat))) ∧
    (uploadBackend (fun _ => 42) 50 demoStore 7 "a.txt" "txt" [1, 2, 3]).2.skipped =
        true ∧
    (uploadBackend (fun _ => 42) 50 demoStore 7 "a.txt" "txt" [1, 2, 3]).1 =
        demoStore ∧
    (handleUpload (fun _ => ⟨10, true⟩) [⟨"a.txt", 3⟩]).info.isSome = true := by
  have h := unchanged_upload_skips_and_preserves (fun _ => 42) 50 demoStore 7
    "a.txt" "txt" [1, 2, 3] demoDoc [⟨"a.txt", 3⟩] ⟨"a.txt", 3⟩
    (fun _ => ⟨10, true⟩) (by decide) (by decide)
  exact ⟨⟨by decide, by decide⟩, h.1, h.2.1, h.2.2 (by decide) (by decide) (by decide)⟩

/-- The error kinds of spec §7. -/
inductive ErrorKind where
  | validationError
  | transientServiceError
  | consistencyError
  | notFoundError
deriving DecidableEq

/-- The `global_settings` row (global settings migration plus the module 6
reranker columns), as also exposed by the frontend `GlobalSettings` type. -/
structure GlobalSettingsRec where
  llm_model : Option String
  llm_base_url : Option String
  llm_api_key : Option String
  embedding_model : Option String
  embedding_base_url : Option String
  embedding_api_key : Option String
  embedding_dimensions : Option Int
  reranker_model : Option String
  reranker_api_key : Option String
deriving DecidableEq

/-- A settings update request (`GlobalSettingsUpdate` in `api.ts`): every
field optional; `none` means the field is absent from the request, `some v`
that it is set to `v` (possibly null). -/
structure GlobalSettingsUpdate where
  llm_model : Option (Option String)
  llm_base_url : Option (Option String)
  llm_api_key : Option (Option String)
  embedding_model : Option (Option String)
  embedding_base_url : Option (Option String)
  embedding_api_key : Option (Option String)
  embedding_dimensions : Option (Option Int)
  reranker_model : Option (Option String)
  reranker_api_key : Option (Option String)
deriving DecidableEq

/-- Whether the update request carries any embedding-related field
(model, base URL, API key, dimensionality). -/
def touchesEmbedding (u : GlobalSettingsUpdate) : Bool :=
  u.embedding_model.isSome || u.embedding_base_url.isSome ||
    u.embedding_api_key.isSome || u.embedding_dimensions.isSome

/-- Applying an update to the stored settings row: present fields overwrite,
absent fields keep the stored value. -/
def applySettingsUpdate (g : GlobalSettingsRec) (u : GlobalSettingsUpdate) :
    GlobalSettingsRec :=
  { llm_model := u.llm_model.getD g.llm_model
    llm_base_url := u.llm_base_url.getD g.llm_base_url
    llm_api_key := u.llm_api_key.getD g.llm_api_key
    embedding_model := u.embedding_model.getD g.embedding_model
    embedding_base_url := u.embedding_base_url.getD g.embedding_base_url
    embedding_api_key := u.embedding_api_key.getD g.embedding_api_key
    embedding_dimensions := u.embedding_dimensions.getD g.embedding_dimensions
    reranker_model := u.reranker_model.getD g.reranker_model
    reranker_api_key := u.reranker_api_key.getD g.reranker_api_key }

/-- Modelled from the spec: the settings update endpoint (§6 Settings,
`embedding-related fields are rejected if any Chunk exists anywhere in the
system`, with `ConsistencyError` per §7 and the dimensionality-lock scenario
of §8).  The FastAPI handler is not among the visible sources — only its
caller `updateSettings`/`handleSave` is.  It returns the stored row
(unchanged on rejection) and the error, if any. -/
def settingsEndpoint {Emb Meta V : Type} (s : Store Emb Meta V)
    (g : GlobalSettingsRec) (u : GlobalSettingsUpdate) :
    GlobalSettingsRec × Option ErrorKind :=
  if ¬ s.chunks.isEmpty ∧ touchesEmbedding u then
    (g, some ErrorKind.consistencyError)
  else
    (applySettingsUpdate g u, none)

/-- The update request built by `handleSave` in the settings page: every
field is present, empty form fields becoming null and the dimensions field
parsed from its text (`parseIntJs` models JavaScript `parseInt(·, 10)`). -/
def mkHandleSaveUpdate (parseIntJs : String → Int)
    (llmModel llmBaseUrl llmApiKey embModel embUrl embKey embDims rerModel
      rerKey : String) : GlobalSettingsUpdate :=
  { llm_model := some (if llmModel == "" then none else some llmModel)
    llm_base_url := some (if llmBaseUrl == "" then none else some llmBaseUrl)
    llm_api_key := some (if llmApiKey == "" then none else some llmApiKey)
    embedding_model := some (if embModel == "" then none else some embModel)
    embedding_base_url := some (if embUrl == "" then none else some embUrl)
    embedding_api_key := some (if embKey == "" then none else some embKey)
    embedding_dimensions :=
      some (if embDims == "" then none else some (parseIntJs embDims))
    reranker_model := some (if rerModel == "" then none else some rerModel)
    reranker_api_key := some (if rerKey == "" then none else some rerKey) }

/-- C7: while at least one chunk exists anywhere, an update carrying any
embedding-related field is answered with `ConsistencyError` and the stored
settings row is returned unchanged; with zero chunks the same update is
applied and succeeds.  The update `handleSave` builds always carries the
embedding fields. -/
theorem settings_embedding_lock {Emb Meta V : Type} (s : Store Emb Meta V)
    (g : GlobalSettingsRec) (u : GlobalSettingsUpdate)
    (parseIntJs : String → Int)
    (a b c d e fdim dims h i : String) :
    (s.chunks ≠ [] → touchesEmbedding u = true →
      settingsEndpoint s g u = (g, some ErrorKind.consistencyError)) ∧
    (s.chunks = [] → settingsEndpoint s g u = (applySettingsUpdate g u, none)) ∧
    touchesEmbedding
      (mkHandleSaveUpdate parseIntJs a b c d e fdim dims h i) = true := by
  refine ⟨?_, ?_, ?_⟩
  · intro hchunks htouch
    rw [settingsEndpoint, if_pos]
    exact ⟨by simpa [List.isEmpty_iff] using hchunks, htouch⟩
  · intro hchunks
    rw [settingsEndpoint, if_neg]
    intro hcontra
    exact hcontra.1 (by simpa [List.isEmpty_iff] using hchunks)
  · simp [mkHandleSaveUpdate, touchesEmbedding]

/-- Concrete instantiation of `settings_embedding_lock`: with `demoStore`'s
one chunk present, the `handleSave` update changing the dimensionality from
1536 is rejected with `ConsistencyError` and the stored row is unchanged;
against the empty store the very same update succeeds. -/
theorem settings_embedding_lock_witness :
    (demoStore.chunks ≠ [] ∧
      touchesEmbedding (mkHandleSaveUpdate (fun _ => 1024) "m" "" "" "emb" ""
        "" "1024" "" "") = true ∧
      settingsEndpoint demoStore
          ⟨none, none, none, some "emb", none, none, some 1536, none, none⟩
          (mkHandleSaveUpdate (fun _ => 1024) "m" "" "" "emb" "" "" "1024" "" "") =
        (⟨none, none, none, some "emb", none, none, some 1536, none, none⟩,
          some ErrorKind.consistencyError)) ∧
    settingsEndpoint (⟨[], []⟩ : Store ℚ Nat Nat)
        ⟨none, none, none, some "emb", none, none, some 1536, none, none⟩
        (mkHandleSaveUpdate (fun _ => 1024) "m" "" "" "emb" "" "" "1024" "" "") =
      (applySettingsUpdate
        ⟨none, none, none, some "emb", none, none, some 1536, none, none⟩
        (mkHandleSaveUpdate (fun _ => 1024) "m" "" "" "emb" "" "" "1024" "" ""),
        none) :=
  ⟨⟨by decide, by decide,
    (settings_embedding_lock demoStore
        ⟨none, none, none, some "emb", none, none, some 1536, none, none⟩
        (mkHandleSaveUpdate (fun _ => 1024) "m" "" "" "emb" "" "" "1024" "" "")
        (fun _ => 1024) "m" "" "" "emb" "" "" "1024" "" "").1
      (by decide) (by decide)⟩,
   (settings_embedding_lock (⟨[], []⟩ : Store ℚ Nat Nat)
       ⟨none, none, none, some "emb", none, none, some 1536, none, none⟩
       (mkHandleSaveUpdate (fun _ => 1024) "m" "" "" "emb" "" "" "1024" "" "")
       (fun _ => 1024) "m" "" "" "emb" "" "" "1024" "" "").2.1 rfl⟩

/-- The callback events of the `sendMessage` SSE consumer in `api.ts`:
`onTextDelta`, `onDone` and `onError` invocations. -/
inductive StreamEvent where
  | textDelta : String → StreamEvent
  | done : StreamEvent
  | error : String → StreamEvent
deriving DecidableEq

/-- The two fields of a parsed `data:` payload that `sendMessage` inspects
(`parsed.content`, `parsed.error`); `none` when the field is absent. -/
structure DataObj where
  content : Option String
  error : Option String
deriving DecidableEq

/-- JavaScript truthiness of an optional string field: present and
non-empty. -/
def truthyStr : Option String → Bool
  | none => false
  | some s => !(s == "")

/-- JavaScript `String.prototype.trim` on a character list. -/
def jsTrim (l : List Char) : List Char :=
  ((l.dropWhile Char.isWhitespace).reverse.dropWhile Char.isWhitespace).reverse

/-- The per-line dispatch of `sendMessage` (`api.ts`): an `event: ` line
dispatches `onDone` exactly when its trimmed type is `done` (and `continue`s
otherwise); a `data: ` line is JSON-parsed (`parseJson` models `JSON.parse`
composed with reading the two fields, `none` for a parse failure, which the
code ignores) and dispatches `onTextDelta` on a truthy `content` and
`onError` on a truthy `error`, in that order; any other line is ignored. -/
def processLine (parseJson : List Char → Option DataObj) (line : List Char) :
    List StreamEvent :=
  if List.isPrefixOf "event: ".data line then
    if jsTrim (line.drop 7) = "done".data then [StreamEvent.done] else []
  else if List.isPrefixOf "data: ".data line then
    match parseJson (line.drop 6) with
    | none => []
    | some obj =>
      (if truthyStr obj.content then [StreamEvent.textDelta (obj.content.getD "")]
       else []) ++
      (if truthyStr obj.error then [StreamEvent.error (obj.error.getD "")]
       else [])
  else []

/-- `buffer.split('\n')` with the last element popped back into the buffer:
the complete newline-terminated lines of a character stream and the
unterminated remainder. -/
def splitLines : List Char → List (List Char) × List Char
  | [] => ([], [])
  | c :: rest =>
    let p := splitLines rest
    if c = '\n' then ([] :: p.1, p.2)
    else
      match p.1 with
      | [] => ([], c :: p.2)
      | l :: ls => ((c :: l) :: ls, p.2)

/-- One `reader.read()` iteration of `sendMessage`: append the chunk to the
buffer, split off the complete lines, dispatch each and keep the
remainder. -/
def feedChunk (parseJson : List Char → Option DataObj) (buf chunk : List Char) :
    List Char × List StreamEvent :=
  ((splitLines (buf ++ chunk)).2,
    (splitLines (buf ++ chunk)).1.flatMap (processLine parseJson))

/-- The state transformer of the read loop: new buffer and accumulated
events. -/
def sseStep (parseJson : List Char → Option DataObj)
    (st : List Char × List StreamEvent) (chunk : List Char) :
    List Char × List StreamEvent :=
  ((feedChunk parseJson st.1 chunk).1,
    st.2 ++ (feedChunk parseJson st.1 chunk).2)

/-- The whole `sendMessage` read loop over a sequence of network chunks:
the events dispatched, in order.  The final buffer is discarded, as the code
never processes the unterminated tail. -/
def runSSE (parseJson : List Char → Option DataObj)
    (chunks : List (List Char)) : List StreamEvent :=
  (chunks.foldl (sseStep parseJson) ([], [])).2

/-- A newline-free stream splits into no complete line and itself as
remainder. -/
theorem splitLines_noNL (l : List Char) (h : ∀ c ∈ l, c ≠ '\n') :
    splitLines l = ([], l) := by
  induction l with
  | nil => rfl
  | cons c rest ih =>
    have hc : c ≠ '\n' := h c (List.mem_cons_self c rest)
    have hrest := ih (fun x hx => h x (List.mem_cons_of_mem c hx))
    simp [splitLines, hrest, hc]

/-- The remainder of a split never contains a newline. -/
theorem splitLines_rem_noNL (l : List Char) :
    ∀ c ∈ (splitLines l).2, c ≠ '\n' := by
  induction l with
  | nil => intro c hc; exact absurd hc (List.not_mem_nil c)
  | cons c rest ih =>
    intro x hx
    by_cases hc : c = '\n'
    · simp only [splitLines, if_pos hc] at hx
      exact ih x hx
    · simp only [splitLines, if_neg hc] at hx
      rcases hp : (splitLines rest).1 with _ | ⟨l₀, ls⟩
      · rw [hp] at hx
        simp only at hx
        rcases List.mem_cons.1 hx with rfl | hx₂
        · exact hc
        · exact ih x hx₂
      · rw [hp] at hx
        simp only at hx
        exact ih x hx

/-- Splitting a concatenation: the complete lines of `a` come first, and the
remainder of `a` is prefixed onto `b` before splitting the rest. -/
theorem splitLines_append (a b : List Char) :
    splitLines (a ++ b) =
      ((splitLines a).1 ++ (splitLines ((splitLines a).2 ++ b)).1,
        (splitLines ((splitLines a).2 ++ b)).2) := by
  induction a with
  | nil => rfl
  | cons c a' ih =>
    by_cases hc : c = '\n'
    · simp only [List.cons_append, splitLines, if_pos hc, List.append_eq, ih]
    · simp only [List.cons_append, splitLines, if_neg hc, List.append_eq, ih]
      rcases hA : (splitLines a').1 with _ | ⟨l₀, ls⟩ <;>
        rcases hM : (splitLines ((splitLines a').2 ++ b)).1 with _ | ⟨m₀, ms⟩ <;>
          simp [splitLines, if_neg hc, hA, hM]

/-- The read loop from any newline-free buffer: the events are exactly the
per-line dispatch of the complete lines of buffer plus stream, and the final
buffer is the unterminated tail. -/
theorem sse_foldl_eq (parseJson : List Char → Option DataObj)
    (chunks : List (List Char)) :
    ∀ (buf : List Char) (evs : List StreamEvent), (∀ c ∈ buf, c ≠ '\n') →
      chunks.foldl (sseStep parseJson) (buf, evs) =
        ((splitLines (buf ++ chunks.flatten)).2,
          evs ++ (splitLines (buf ++ chunks.flatten)).1.flatMap
            (processLine parseJson)) := by
  induction chunks with
  | nil =>
    intro buf evs hbuf
    simp [splitLines_noNL buf hbuf]
  | cons c cs ih =>
    intro buf evs hbuf
    rw [List.foldl_cons]
    have hstep : sseStep parseJson (buf, evs) c =
        ((splitLines (buf ++ c)).2,
          evs ++ (splitLines (buf ++ c)).1.flatMap (processLine parseJson)) := rfl
    rw [hstep, ih ((splitLines (buf ++ c)).2) _ (splitLines_rem_noNL _)]
    have hflat : buf ++ (c :: cs).flatten = (buf ++ c) ++ cs.flatten := by
      simp [List.flatten_cons, List.append_assoc]
    rw [hflat, splitLines_append (buf ++ c) cs.flatten]
    simp [List.flatMap_append, List.append_assoc]

/-- The events of a whole stream are the per-line dispatch of its complete
newline-terminated lines, in order; the tail after the last newline is never
dispatched. -/
theorem runSSE_eq (parseJson : List Char → Option DataObj)
    (chunks : List (List Char)) :
    runSSE parseJson chunks =
      (splitLines chunks.flatten).1.flatMap (processLine parseJson) := by
  unfold runSSE
  rw [sse_foldl_eq parseJson chunks [] []
    (fun c hc => absurd hc (List.not_mem_nil c))]
  simp

/-- C10: the `sendMessage` SSE consumer is invariant under network chunking —
two splittings of the same byte stream dispatch identical event sequences —
and bytes after the final newline stay in the buffer and are never delivered
to any callback. -/
theorem sse_parser_chunking_invariant (parseJson : List Char → Option DataObj)
    (chunks₁ chunks₂ : List (List Char)) (s tail : List Char) :
    (chunks₁.flatten = chunks₂.flatten →
      runSSE parseJson chunks₁ = runSSE parseJson chunks₂) ∧
    ((∀ c ∈ tail, c ≠ '\n') →
      runSSE parseJson [s ++ tail] = runSSE parseJson [s]) := by
  constructor
  · intro h
    rw [runSSE_eq, runSSE_eq, h]
  · intro htail
    rw [runSSE_eq, runSSE_eq]
    simp only [List.flatten_cons, List.flatten_nil, List.append_nil]
    rw [splitLines_append s tail]
    have hnl : ∀ c ∈ (splitLines s).2 ++ tail, c ≠ '\n' := by
      intro c hc
      rcases List.mem_append.1 hc with h | h
      · exact splitLines_rem_noNL s c h
      · exact htail c h
    rw [splitLines_noNL _ hnl]
    simp

/-- Concrete instantiation of `sse_parser_chunking_invariant`: a data line
split in two arrives as the same events as unsplit, and a trailing partial
line changes nothing. -/
theorem sse_parser_chunking_invariant_witness :
    (["dat".data, "a: x\n".data].flatten = ["data: x\n".data].flatten ∧
      runSSE (fun _ => none) ["dat".data, "a: x\n".data] =
        runSSE (fun _ => none) ["data: x\n".data]) ∧
    ((∀ c ∈ "partial".data, c ≠ '\n') ∧
      runSSE (fun _ => none) ["data: x\n".data ++ "partial".data] =
        runSSE (fun _ => none) ["data: x\n".data]) :=
  ⟨⟨by decide,
    (sse_parser_chunking_invariant (fun _ => none) ["dat".data, "a: x\n".data]
        ["data: x\n".data] "data: x\n".data "partial".data).1 (by decide)⟩,
   ⟨by decide,
    (sse_parser_chunking_invariant (fun _ => none) ["dat".data, "a: x\n".data]
        ["data: x\n".data] "data: x\n".data "partial".data).2 (by decide)⟩⟩

/-- A concrete stand-in for `JSON.parse` plus field extraction, defined on
the one payload the counterexample stream carries (on which the real
`JSON.parse` yields an object whose `error` field is `"boom"`). -/
def demoJsonParse : List Char → Option DataObj :=
  fun s =>
    if s = "\x7b\"error\":\"boom\"\x7d".data then some ⟨none, some "boom"⟩
    else none

/-- C9 counterexample: on the stream carrying an error data line followed by
a done event line, the consumer dispatches `onError` and then still
dispatches `onDone` — the loop does not stop at an error, refuting that no
done event is ever dispatched after an error event. -/
theorem sse_done_after_error_counterexample :
    runSSE demoJsonParse
        ["data: \x7b\"error\":\"boom\"\x7d\nevent: done\n".data] =
      [StreamEvent.error "boom", StreamEvent.done] := by
  decide

/-- C9 (amended): the consumer dispatches callbacks per complete
newline-terminated line, in stream order — `onDone` for an `event:` line
whose trimmed type is `done`, `onTextDelta`/`onError` for the truthy
`content`/`error` fields of a `data:` line (both when both are present), and
nothing for any other line; the cited consumer has no sources handler.
Dispatch does not stop after an error: a done line arriving on a line
boundary after any earlier events — including an error — still dispatches
`onDone`. -/
theorem sse_dispatch_per_line (parseJson : List Char → Option DataObj)
    (chunks : List (List Char)) :
    runSSE parseJson chunks =
      (splitLines chunks.flatten).1.flatMap (processLine parseJson) ∧
    ((splitLines chunks.flatten).2 = [] →
      runSSE parseJson (chunks ++ ["event: done\n".data]) =
        runSSE parseJson chunks ++ [StreamEvent.done]) := by
  constructor
  · exact runSSE_eq parseJson chunks
  · intro hrem
    rw [runSSE_eq, runSSE_eq, List.flatten_append]
    simp only [List.flatten_cons, List.flatten_nil, List.append_nil]
    rw [splitLines_append chunks.flatten ("event: done\n".data), hrem,
      List.nil_append]
    rw [show splitLines ("event: done\n".data) = (["event: done".data], [])
      from rfl]
    simp only [List.flatMap_append]
    congr 1
/-- Concrete instantiation of `sse_dispatch_per_line`: after a fully
line-terminated stream, a final done line appends exactly one done event. -/
theorem sse_dispatch_per_line_witness :
    (splitLines (["data: x\n".data] : List (List Char)).flatten).2 = [] ∧
    runSSE (fun _ => none) (["data: x\n".data] ++ ["event: done\n".data]) =
      runSSE (fun _ => none) ["data: x\n".data] ++ [StreamEvent.done] :=
  ⟨by decide,
   (sse_dispatch_per_line (fun _ => none) ["data: x\n".data]).2 (by decide)⟩

/-- The upload endpoint reports `skipped` exactly on the Record Manager's
`unchanged` verdict. -/
theorem uploadBackend_skipped_iff {Emb Meta V : Type} (hash : List Nat → Nat)
    (newId : Nat) (s : Store Emb Meta V) (owner : Nat)
    (filename ftype : String) (bytes : List Nat) :
    (uploadBackend hash newId s owner filename ftype bytes).2.skipped = true ↔
      recordManagerDecide hash s owner filename bytes =
        UploadDecision.isUnchanged := by
  unfold uploadBackend recordManagerDecide
  cases hfind : s.documents.find?
      (fun d => d.user_id == owner && d.filename == filename) with
  | none => simp
  | some d =>
    by_cases hh : d.content_hash = some (hash bytes) <;> simp [hh]
